import Mathlib

/-!
Shallow embedding of the LSAG (linkable spontaneous anonymous group)
signature core of this repository: key-image derivation, ring-signature
construction, ring verification, and linkability comparison, translated
from the TypeScript source (`createKeyImage`, `generateLSAGSignature`,
`verifyLSAGSignature`, `areLSAGSignaturesLinked`).

The SHA-256 digests (hex- and base64-encoded), the RSA signing primitive
and JSON array serialization are platform-library collaborators; the
embedding is parametric in them through a `Primitives` record. Randomness
is made explicit: the random scalars drawn during signing are passed as an
input list. JavaScript semantics that matter are reproduced: reading past
the end of an array yields `undefined`, which string concatenation renders
as the text "undefined"; a missing ring entry is falsy, as is the empty
string; the falsiness check on `group.id` rejects both an absent id and an
empty-string id.
-/

/-- A group member (schema `GroupMember`): caller-assigned identifier and an
encoded public key string. -/
structure GroupMember where
  id : String
  publicKey : String
deriving DecidableEq

/-- An LSAG group (schema `LSAGGroup`): an optional identifier (assigned when
the group is persisted), a display name, and the ordered member list. -/
structure LSAGGroup where
  id : Option String
  name : String
  members : List GroupMember
deriving DecidableEq

/-- A ring signature record (schema `LSAGSignature`): the ordered ring
entries, the final chained challenge (hex), the key image (hex), the signed
message and the id of the group signed against. -/
structure LSAGSignature where
  ringSignature : List String
  challenge : String
  keyImage : String
  message : String
  groupId : String
deriving DecidableEq

deriving instance DecidableEq for Except

/-- The platform primitives the LSAG core calls out to: SHA-256 with hex
digest encoding, SHA-256 with base64 digest encoding, the RSA signing
primitive (data, then private key, returning base64), and JSON
serialization of an array of strings. All theorems quantify over them. -/
structure Primitives where
  hashHex : String → String
  hashB64 : String → String
  sign : String → String → String
  jsonArr : List String → String

/-- `createKeyImage` from the source: the hex SHA-256 digest of
(hex SHA-256 digest of message ++ publicKey) ++ privateKey. -/
def createKeyImage (p : Primitives) (message privateKey publicKey : String) :
    String :=
  let hash := p.hashHex (message ++ publicKey)
  p.hashHex (hash ++ privateKey)

/-- The for-loop of `generateLSAGSignature`, walking the members in index
order with the running challenge: the signer's slot signs
message ++ challenge with the private key (base64), every other slot is the
base64 SHA-256 digest of message ++ randomValues[i] ++ challenge; the
challenge is then rechained as the hex digest of
challenge ++ entry ++ member.publicKey. Returns the entry list and the
final challenge. An out-of-range read of the random-value array is
JavaScript `undefined`, rendered "undefined" by string concatenation. -/
def generateLoop (p : Primitives) (message privateKey : String)
    (signerIndex : Nat) (randoms : List String) :
    List GroupMember → Nat → String → List String × String
  | [], _, challenge => ([], challenge)
  | m :: rest, i, challenge =>
    let entry :=
      if i = signerIndex then p.sign (message ++ challenge) privateKey
      else p.hashB64 (message ++ randoms.getD i "undefined" ++ challenge)
    let next := p.hashHex (challenge ++ entry ++ m.publicKey)
    let res := generateLoop p message privateKey signerIndex randoms rest
      (i + 1) next
    (entry :: res.1, res.2)

/-- `generateLSAGSignature` from the source, with the randomly drawn scalars
passed in as the `randoms` list (the source draws exactly one fresh 32-byte
hex scalar per member). The initial challenge is the hex digest of
message ++ JSON(all member public keys) ++ randomValues[0]; the loop then
fills every slot and rechains; finally the source throws when `group.id` is
falsy (absent or the empty string), else returns the record carrying the
post-loop challenge. -/
def generateLSAGSignature (p : Primitives)
    (message privateKey signerPublicKey : String) (group : LSAGGroup)
    (signerIndex : Nat) (randoms : List String) :
    Except String LSAGSignature :=
  let keyImage := createKeyImage p message privateKey signerPublicKey
  let challenge0 := p.hashHex
    (message ++ p.jsonArr (group.members.map (fun m => m.publicKey)) ++
      randoms.getD 0 "undefined")
  let res := generateLoop p message privateKey signerIndex randoms
    group.members 0 challenge0
  match group.id with
  | none => .error "Group must have an ID to generate signature"
  | some gid =>
    if gid = "" then .error "Group must have an ID to generate signature"
    else .ok { ringSignature := res.1, challenge := res.2,
               keyImage := keyImage, message := message, groupId := gid }

/-- The for-loop of `verifyLSAGSignature`, walking the members in index
order: a missing ring entry (JavaScript `undefined` from an out-of-range
index), an empty entry (falsy), or an entry shorter than 10 characters makes
the ring invalid and stops the loop; otherwise the challenge is rechained
with the entry and the member's public key, and is never compared against
anything. -/
def verifyLoop (p : Primitives) (entries : List String) :
    List GroupMember → Nat → String → Bool
  | [], _, _ => true
  | m :: rest, i, challenge =>
    match entries[i]? with
    | none => false
    | some e =>
      if e = "" ∨ e.length < 10 then false
      else verifyLoop p entries rest (i + 1)
        (p.hashHex (challenge ++ e ++ m.publicKey))

/-- `verifyLSAGSignature` from the source: replay the chain from the stored
challenge over the group members, returning whether every ring entry passed
the presence/length check. -/
def verifyLSAGSignature (p : Primitives) (signature : LSAGSignature)
    (group : LSAGGroup) : Bool :=
  verifyLoop p signature.ringSignature group.members 0 signature.challenge

/-- `areLSAGSignaturesLinked` from the source: exact string equality of the
two key images. -/
def areLSAGSignaturesLinked (sig1 sig2 : LSAGSignature) : Bool :=
  sig1.keyImage == sig2.keyImage

/-- Whether the ring entry at index `k` exists and passes the verifier's
structural check (present, non-empty, length at least 10; emptiness is
subsumed by the length bound). -/
def entryOk (entries : List String) (k : Nat) : Bool :=
  match entries[k]? with
  | none => false
  | some e => decide (10 ≤ e.length)


theorem entryOk_eq_true_iff (entries : List String) (k : Nat) :
    entryOk entries k = true ↔
      ∃ e, entries[k]? = some e ∧ 10 ≤ e.length := by
  unfold entryOk
  cases h : entries[k]? with
  | none => simp
  | some e => simp

theorem entry_check_or_iff (e : String) :
    (e = "" ∨ e.length < 10) ↔ e.length < 10 := by
  constructor
  · rintro (rfl | h)
    · decide
    · exact h
  · exact Or.inr

theorem verifyLoop_eq_true_iff (p : Primitives) (entries : List String) :
    ∀ (ms : List GroupMember) (i : Nat) (c : String),
      verifyLoop p entries ms i c = true ↔
        ∀ k < ms.length, entryOk entries (i + k) = true := by
  intro ms
  induction ms with
  | nil => intro i c; simp [verifyLoop]
  | cons m rest ih =>
    intro i c
    simp only [verifyLoop]
    cases h : entries[i]? with
    | none =>
      have hok : entryOk entries i = false := by unfold entryOk; rw [h]
      constructor
      · intro hfalse; exact absurd hfalse Bool.false_ne_true
      · intro hall
        have h0 := hall 0 (Nat.succ_pos _)
        rw [Nat.add_zero, hok] at h0
        exact absurd h0 Bool.false_ne_true
    | some e =>
      dsimp only
      by_cases hc : e = "" ∨ e.length < 10
      · rw [if_pos hc]
        have hlt : e.length < 10 := (entry_check_or_iff e).mp hc
        have hok : entryOk entries i = false := by
          unfold entryOk; rw [h]; simp [Nat.not_le.mpr hlt]
        constructor
        · intro hfalse; exact absurd hfalse Bool.false_ne_true
        · intro hall
          have h0 := hall 0 (Nat.succ_pos _)
          rw [Nat.add_zero, hok] at h0
          exact absurd h0 Bool.false_ne_true
      · rw [if_neg hc]
        have hle : 10 ≤ e.length :=
          Nat.le_of_not_lt (fun h1 => hc (Or.inr h1))
        have hok : entryOk entries i = true := by
          unfold entryOk; rw [h]; simp [hle]
        rw [ih]
        constructor
        · intro hall k hk
          cases k with
          | zero => rw [Nat.add_zero]; exact hok
          | succ k1 =>
            have hrec := hall k1 (Nat.lt_of_succ_lt_succ hk)
            rw [show i + (k1 + 1) = i + 1 + k1 by omega]
            exact hrec
        · intro hall k hk
          have hrec := hall (k + 1) (Nat.succ_lt_succ hk)
          rw [show i + 1 + k = i + (k + 1) by omega]
          exact hrec

theorem verifyLSAGSignature_eq_true_iff (p : Primitives)
    (s : LSAGSignature) (G : LSAGGroup) :
    verifyLSAGSignature p s G = true ↔
      ∀ i < G.members.length, entryOk s.ringSignature i = true := by
  unfold verifyLSAGSignature
  rw [verifyLoop_eq_true_iff]
  constructor
  · intro h i hi
    have := h i hi
    rwa [Nat.zero_add] at this
  · intro h i hi
    rw [Nat.zero_add]
    exact h i hi

theorem bool_eq_of_iff {a b : Bool} (h : (a = true) ↔ (b = true)) :
    a = b := by
  cases a <;> cases b <;> simp_all

theorem entry_cond_false_of_len {e : String} (h : 10 ≤ e.length) :
    ¬(e = "" ∨ e.length < 10) := by
  rintro (rfl | h1)
  · exact absurd h (by decide)
  · exact absurd h (Nat.not_le.mpr h1)

theorem verifyLoop_congr (p q : Primitives) (es fs : List String) :
    ∀ (ms ns : List GroupMember) (i j : Nat) (c d : String),
      ms.length = ns.length →
      (∀ k < ms.length, entryOk es (i + k) = entryOk fs (j + k)) →
      verifyLoop p es ms i c = verifyLoop q fs ns j d := by
  intro ms
  induction ms with
  | nil =>
    intro ns i j c d hlen hent
    cases ns with
    | nil => rfl
    | cons x xs => exact absurd hlen.symm (by simp)
  | cons m rest ih =>
    intro ns i j c d hlen hent
    cases ns with
    | nil => exact absurd hlen (by simp)
    | cons m1 rest1 =>
      have hlen1 : rest.length = rest1.length := by simpa using hlen
      have h0 := hent 0 (Nat.succ_pos _)
      rw [Nat.add_zero, Nat.add_zero] at h0
      simp only [verifyLoop]
      cases he : es[i]? with
      | none =>
        have hoke : entryOk es i = false := by unfold entryOk; rw [he]
        rw [hoke] at h0
        cases hf : fs[j]? with
        | none => rfl
        | some f =>
          dsimp only
          have hokf : entryOk fs j = false := h0.symm
          unfold entryOk at hokf
          rw [hf] at hokf
          have hltf : f.length < 10 := by
            by_contra hge
            simp [Nat.le_of_not_lt hge] at hokf
          rw [if_pos (Or.inr hltf)]
      | some e =>
        dsimp only
        by_cases hc : e = "" ∨ e.length < 10
        · rw [if_pos hc]
          have hlt : e.length < 10 := (entry_check_or_iff e).mp hc
          have hoke : entryOk es i = false := by
            unfold entryOk; rw [he]; simp [Nat.not_le.mpr hlt]
          rw [hoke] at h0
          cases hf : fs[j]? with
          | none => rfl
          | some f =>
            dsimp only
            have hokf : entryOk fs j = false := h0.symm
            unfold entryOk at hokf
            rw [hf] at hokf
            have hltf : f.length < 10 := by
              by_contra hge
              simp [Nat.le_of_not_lt hge] at hokf
            rw [if_pos (Or.inr hltf)]
        · rw [if_neg hc]
          have hle : 10 ≤ e.length :=
            Nat.le_of_not_lt (fun h1 => hc (Or.inr h1))
          have hoke : entryOk es i = true := by
            unfold entryOk; rw [he]; simp [hle]
          rw [hoke] at h0
          obtain ⟨f, hf, hlef⟩ := (entryOk_eq_true_iff fs j).mp h0.symm
          rw [hf]
          dsimp only
          rw [if_neg (entry_cond_false_of_len hlef)]
          apply ih rest1 (i + 1) (j + 1) _ _ hlen1
          intro k hk
          have hrec := hent (k + 1) (Nat.succ_lt_succ hk)
          rw [show i + (k + 1) = i + 1 + k by omega,
              show j + (k + 1) = j + 1 + k by omega] at hrec
          exact hrec

theorem generateLoop_length (p : Primitives) (message privateKey : String)
    (signerIndex : Nat) (randoms : List String) :
    ∀ (ms : List GroupMember) (i : Nat) (c : String),
      (generateLoop p message privateKey signerIndex randoms ms i c).1.length
        = ms.length := by
  intro ms
  induction ms with
  | nil => intro i c; rfl
  | cons m rest ih =>
    intro i c
    simp only [generateLoop, List.length_cons]
    rw [ih]

/-- The entry chain exactly as the spec words it (§4.2 steps 4–5): walk the
pairs (r_i, pk_i) in ascending index order; the signer's slot is
Sign(message ‖ c, privateKey), every other slot is the base64 hash of
message ‖ r_i ‖ c, after which c becomes the hex hash of
c ‖ entry_i ‖ pk_i. Returns the ordered entries and the post-loop c. -/
def specRingChain (p : Primitives) (message privateKey : String)
    (signerIndex : Nat) :
    List (String × String) → Nat → String → List String × String
  | [], _, c => ([], c)
  | (r, pk) :: rest, i, c =>
    let entry :=
      if i = signerIndex then p.sign (message ++ c) privateKey
      else p.hashB64 (message ++ r ++ c)
    let c2 := p.hashHex (c ++ entry ++ pk)
    let res := specRingChain p message privateKey signerIndex rest (i + 1) c2
    (entry :: res.1, res.2)

theorem generateLoop_eq_specRingChain (p : Primitives)
    (message privateKey : String) (signerIndex : Nat)
    (randoms : List String) :
    ∀ (ms : List GroupMember) (i : Nat) (c : String),
      (randoms.drop i).length = ms.length →
      generateLoop p message privateKey signerIndex randoms ms i c =
        specRingChain p message privateKey signerIndex
          ((randoms.drop i).zip (ms.map (fun m => m.publicKey))) i c := by
  intro ms
  induction ms with
  | nil =>
    intro i c hlen
    have hnil : randoms.drop i = [] := List.length_eq_zero.mp hlen
    rw [hnil]
    rfl
  | cons m rest ih =>
    intro i c hlen
    rw [List.length_drop, List.length_cons] at hlen
    have hi : i < randoms.length := by omega
    have hdrop : randoms.drop i = randoms[i] :: randoms.drop (i + 1) :=
      List.drop_eq_getElem_cons hi
    have hget : randoms.getD i "undefined" = randoms[i] := by
      rw [List.getD_eq_getElem?_getD, List.getElem?_eq_getElem hi]
      rfl
    rw [hdrop]
    simp only [generateLoop, specRingChain, List.map_cons, List.zip_cons_cons]
    rw [hget]
    have hlen1 : (randoms.drop (i + 1)).length = rest.length := by
      rw [List.length_drop]
      omega
    rw [ih (i + 1) _ hlen1]
    rfl

theorem specRingChain_length (p : Primitives) (message privateKey : String)
    (signerIndex : Nat) :
    ∀ (ps : List (String × String)) (i : Nat) (c : String),
      (specRingChain p message privateKey signerIndex ps i c).1.length
        = ps.length := by
  intro ps
  induction ps with
  | nil => intro i c; rfl
  | cons q rest ih =>
    intro i c
    obtain ⟨r, pk⟩ := q
    simp only [specRingChain, List.length_cons]
    rw [ih]

theorem generateLSAGSignature_ok_iff (p : Primitives)
    (message privateKey signerPublicKey : String) (group : LSAGGroup)
    (signerIndex : Nat) (randoms : List String) (sig : LSAGSignature) :
    generateLSAGSignature p message privateKey signerPublicKey group
        signerIndex randoms = .ok sig ↔
      ∃ gid, group.id = some gid ∧ gid ≠ "" ∧
        sig = { ringSignature :=
                  (generateLoop p message privateKey signerIndex randoms
                    group.members 0
                    (p.hashHex (message ++
                      p.jsonArr (group.members.map (fun m => m.publicKey)) ++
                      randoms.getD 0 "undefined"))).1,
                challenge :=
                  (generateLoop p message privateKey signerIndex randoms
                    group.members 0
                    (p.hashHex (message ++
                      p.jsonArr (group.members.map (fun m => m.publicKey)) ++
                      randoms.getD 0 "undefined"))).2,
                keyImage :=
                  createKeyImage p message privateKey signerPublicKey,
                message := message, groupId := gid } := by
  unfold generateLSAGSignature
  cases hid : group.id with
  | none => simp
  | some gid =>
    by_cases hgid : gid = ""
    · subst hgid
      simp
    · simp only [if_neg hgid]
      constructor
      · intro h
        injection h with h1
        exact ⟨gid, rfl, hgid, h1.symm⟩
      · rintro ⟨gid1, hg1, _, hsig⟩
        injection hg1 with hg1
        subst hg1
        rw [hsig]

theorem bool_eq_false_of_ne_true {b : Bool} (h : ¬ b = true) : b = false := by
  cases b
  · rfl
  · exact absurd rfl h

theorem string_append_cancel_right {a b c : String} (h : a ++ c = b ++ c) :
    a = b := by
  apply String.ext
  have hd := congrArg String.data h
  rw [String.data_append, String.data_append] at hd
  exact List.append_cancel_right hd

/-- Concrete stand-in primitives for closed evaluations in witnesses:
string concatenation models hashing and signing, the JSON encoding is the
constant empty string. -/
def pId : Primitives :=
  { hashHex := fun s => s, hashB64 := fun s => s,
    sign := fun data _ => data, jsonArr := fun _ => "" }

/-- A second, different set of stand-in primitives. -/
def pX : Primitives :=
  { hashHex := fun s => "x" ++ s, hashB64 := fun s => "y" ++ s,
    sign := fun data _ => "z" ++ data, jsonArr := fun l => String.join l }

/-- A one-member group with an assigned id. -/
def GC : LSAGGroup :=
  { id := some "g1", name := "grp",
    members := [{ id := "A", publicKey := "PK" }] }

/-- A one-member group with no id and a different public key. -/
def HC : LSAGGroup :=
  { id := none, name := "grp2",
    members := [{ id := "B", publicKey := "QK" }] }

/-- The record that `generateLSAGSignature` produces on the fixture
(pId, message "hello", keys "sk"/"PK", group GC, signer 0, one scalar). -/
def sigC : LSAGSignature :=
  { ringSignature := ["hellohellor0000000000"],
    challenge := "hellor0000000000hellohellor0000000000PK",
    keyImage := "helloPKsk",
    message := "hello", groupId := "g1" }

/-- A record agreeing with sigC on entry count and entry lengths only. -/
def sigD : LSAGSignature :=
  { ringSignature := ["ZZZZZZZZZZZZZZZZZZZZZ"],
    challenge := "other", keyImage := "kk", message := "mm",
    groupId := "hh" }

/-- A record with no ring entries. -/
def sigE : LSAGSignature :=
  { ringSignature := [], challenge := "c", keyImage := "k",
    message := "m", groupId := "g" }

/-- C1: `verifyLSAGSignature` is a structural check only. It returns `true`
iff every index below the member count carries a ring entry of length at
least 10 (the defining recursion indeed stops at the first failing entry);
truncating any entry below 10 characters forces `false`; and the recomputed
chained value influences nothing — the outcome is invariant under replacing
the hash primitives and the stored challenge. -/
theorem verify_structural_only (p : Primitives) (s : LSAGSignature)
    (G : LSAGGroup) :
    (verifyLSAGSignature p s G = true ↔
       ∀ i < G.members.length,
         ∃ e, s.ringSignature[i]? = some e ∧ 10 ≤ e.length)
  ∧ (∀ (i : Nat) (e1 : String), i < G.members.length → e1.length < 10 →
       verifyLSAGSignature p
         { s with ringSignature := s.ringSignature.set i e1 } G = false)
  ∧ (∀ (q : Primitives) (c1 : String),
       verifyLSAGSignature q { s with challenge := c1 } G =
         verifyLSAGSignature p s G) := by
  refine ⟨?_, ?_, ?_⟩
  · rw [verifyLSAGSignature_eq_true_iff]
    constructor
    · intro h i hi
      exact (entryOk_eq_true_iff _ _).mp (h i hi)
    · intro h i hi
      exact (entryOk_eq_true_iff _ _).mpr (h i hi)
  · intro i e1 hi h10
    apply bool_eq_false_of_ne_true
    rw [verifyLSAGSignature_eq_true_iff]
    intro hall
    have h1 := hall i hi
    rw [entryOk_eq_true_iff] at h1
    obtain ⟨e, he, hlen⟩ := h1
    by_cases hil : i < s.ringSignature.length
    · rw [show ({ s with ringSignature := s.ringSignature.set i e1 } :
            LSAGSignature).ringSignature = s.ringSignature.set i e1 from rfl,
          List.getElem?_set_self hil] at he
      injection he with he1
      subst he1
      exact absurd hlen (Nat.not_le.mpr h10)
    · rw [show ({ s with ringSignature := s.ringSignature.set i e1 } :
            LSAGSignature).ringSignature = s.ringSignature.set i e1 from rfl,
          List.set_eq_of_length_le (Nat.le_of_not_lt hil),
          List.getElem?_eq_none (Nat.le_of_not_lt hil)] at he
      exact absurd he (by simp)
  · intro q c1
    unfold verifyLSAGSignature
    exact verifyLoop_congr q p _ _ G.members G.members 0 0 _ _ rfl
      (fun k _ => rfl)

/-- C5: `areLSAGSignaturesLinked` is exactly key-image string equality: it
equals the boolean a.keyImage == b.keyImage, is reflexive, and is
insensitive to the ring entries, challenge, message and group id of either
record, so equal key images across different groups still report linked. -/
theorem linked_iff_keyImage_eq (a b : LSAGSignature) :
    (areLSAGSignaturesLinked a b = (a.keyImage == b.keyImage))
  ∧ (areLSAGSignaturesLinked a b = true ↔ a.keyImage = b.keyImage)
  ∧ (areLSAGSignaturesLinked a a = true)
  ∧ (∀ es c m g es1 c1 m1 g1,
       areLSAGSignaturesLinked
         { ringSignature := es, challenge := c, keyImage := a.keyImage,
           message := m, groupId := g }
         { ringSignature := es1, challenge := c1, keyImage := b.keyImage,
           message := m1, groupId := g1 } =
         areLSAGSignaturesLinked a b) := by
  refine ⟨rfl, ?_, ?_, fun _ _ _ _ _ _ _ _ => rfl⟩
  · unfold areLSAGSignaturesLinked
    exact beq_iff_eq
  · unfold areLSAGSignaturesLinked
    exact beq_self_eq_true a.keyImage

/-- C10: a group with zero members verifies any signature record: the
per-entry loop is vacuous, so the all-entries-pass condition holds
vacuously whatever the ring entries are. -/
theorem verify_zero_members_true (p : Primitives) (s : LSAGSignature)
    (gid : Option String) (name : String) :
    verifyLSAGSignature p s { id := gid, name := name, members := [] }
      = true := rfl

theorem verify_of_entries (p : Primitives) (s : LSAGSignature)
    (G : LSAGGroup) (hlen : G.members.length ≤ s.ringSignature.length)
    (hent : ∀ e ∈ s.ringSignature, 10 ≤ e.length) :
    verifyLSAGSignature p s G = true := by
  rw [verifyLSAGSignature_eq_true_iff]
  intro i hi
  have hi2 : i < s.ringSignature.length := Nat.lt_of_lt_of_le hi hlen
  rw [entryOk_eq_true_iff]
  exact ⟨s.ringSignature[i], List.getElem?_eq_getElem hi2,
    hent _ (List.getElem_mem hi2)⟩

theorem generate_ok_ringLength (p : Primitives)
    (message privateKey signerPublicKey : String) (group : LSAGGroup)
    (signerIndex : Nat) (randoms : List String) (sig : LSAGSignature)
    (hok : generateLSAGSignature p message privateKey signerPublicKey group
      signerIndex randoms = .ok sig) :
    sig.ringSignature.length = group.members.length := by
  rw [generateLSAGSignature_ok_iff] at hok
  obtain ⟨gid, _, _, rfl⟩ := hok
  exact generateLoop_length p message privateKey signerIndex randoms
    group.members 0 _

/-- C2: round trip — a signature produced by `generateLSAGSignature`
verifies as `true` against the same group whenever every produced ring
entry has length at least 10, and keeps verifying after the entries are
replaced wholesale by arbitrary strings of length at least 10 (one per
member), demonstrating the verifier's structural-only check. -/
theorem generate_then_verify (p : Primitives) (m sk pk : String)
    (G : LSAGGroup) (idx : Nat) (randoms : List String)
    (sig : LSAGSignature)
    (hn : 1 ≤ G.members.length)
    (hok : generateLSAGSignature p m sk pk G idx randoms = .ok sig)
    (hent : ∀ e ∈ sig.ringSignature, 10 ≤ e.length) :
    verifyLSAGSignature p sig G = true
  ∧ ∀ es : List String, es.length = G.members.length →
      (∀ e ∈ es, 10 ≤ e.length) →
      verifyLSAGSignature p { sig with ringSignature := es } G = true := by
  have hlen := generate_ok_ringLength p m sk pk G idx randoms sig hok
  constructor
  · exact verify_of_entries p sig G (Nat.le_of_eq hlen.symm) hent
  · intro es hes hese
    exact verify_of_entries p { sig with ringSignature := es } G
      (Nat.le_of_eq hes.symm) hese

/-- Witness for the round trip at a concrete input: a one-member group with
an assigned id, concatenation primitives, and one drawn scalar; the
produced record is sigC, every entry has length at least 10, verification
returns true, and it still returns true after replacing the entry by the
ten-character string "0123456789". -/
theorem generate_then_verify_witness :
    1 ≤ GC.members.length ∧
    generateLSAGSignature pId "hello" "sk" "PK" GC 0 ["r0000000000"] =
      .ok sigC ∧
    (∀ e ∈ sigC.ringSignature, 10 ≤ e.length) ∧
    verifyLSAGSignature pId sigC GC = true ∧
    verifyLSAGSignature pId { sigC with ringSignature := ["0123456789"] } GC
      = true :=
  ⟨by decide, by decide, by decide,
   (generate_then_verify pId "hello" "sk" "PK" GC 0 ["r0000000000"] sigC
     (by decide) (by decide) (by decide)).1,
   (generate_then_verify pId "hello" "sk" "PK" GC 0 ["r0000000000"] sigC
     (by decide) (by decide) (by decide)).2 ["0123456789"] (by decide)
     (by decide)⟩

/-- C3: with the drawn scalars r_0 .. r_{n-1} given as inputs,
`generateLSAGSignature` returns exactly the record the spec describes: key
image from `createKeyImage`; chain seeded from
Hash(message ‖ JSON(all member public keys) ‖ r_0) — only r_0, regardless
of the signer index; entries produced for i = 0 .. n-1 in ascending order,
a real signature over message ‖ c at the signer's slot and
Hash(message ‖ r_i ‖ c) elsewhere, with c rechained as
Hash(c ‖ entry_i ‖ pk_i) after every slot; the stored challenge is the
post-loop c, not the seed; and there is exactly one entry per member. -/
theorem generate_matches_spec (p : Primitives) (m sk pk : String)
    (G : LSAGGroup) (idx : Nat) (r0 : String) (rs : List String)
    (gid : String) (hid : G.id = some gid) (hgid : gid ≠ "")
    (hrand : (r0 :: rs).length = G.members.length) :
    generateLSAGSignature p m sk pk G idx (r0 :: rs) =
      .ok { ringSignature :=
              (specRingChain p m sk idx
                ((r0 :: rs).zip (G.members.map (fun mem => mem.publicKey)))
                0
                (p.hashHex (m ++
                  p.jsonArr (G.members.map (fun mem => mem.publicKey)) ++
                  r0))).1,
            challenge :=
              (specRingChain p m sk idx
                ((r0 :: rs).zip (G.members.map (fun mem => mem.publicKey)))
                0
                (p.hashHex (m ++
                  p.jsonArr (G.members.map (fun mem => mem.publicKey)) ++
                  r0))).2,
            keyImage := createKeyImage p m sk pk,
            message := m, groupId := gid }
  ∧ (specRingChain p m sk idx
       ((r0 :: rs).zip (G.members.map (fun mem => mem.publicKey))) 0
       (p.hashHex (m ++
         p.jsonArr (G.members.map (fun mem => mem.publicKey)) ++
         r0))).1.length = G.members.length := by
  have hloop := generateLoop_eq_specRingChain p m sk idx (r0 :: rs)
    G.members 0
    (p.hashHex (m ++ p.jsonArr (G.members.map (fun mem => mem.publicKey)) ++
      (r0 :: rs).getD 0 "undefined")) hrand
  constructor
  · rw [generateLSAGSignature_ok_iff]
    refine ⟨gid, hid, hgid, ?_⟩
    rw [hloop]
    rfl
  · rw [specRingChain_length, List.length_zip, List.length_map, hrand]
    exact Nat.min_self _

/-- Witness for the construction characterization at the concrete fixture:
one member, signer index 0, scalar "r0000000000"; both conjuncts evaluate. -/
theorem generate_matches_spec_witness :
    GC.id = some "g1" ∧ ("g1" : String) ≠ "" ∧
    ("r0000000000" :: ([] : List String)).length = GC.members.length ∧
    generateLSAGSignature pId "hello" "sk" "PK" GC 0 ["r0000000000"] =
      .ok sigC :=
  ⟨rfl, by decide, rfl, by
    have h := generate_matches_spec pId "hello" "sk" "PK" GC 0
      "r0000000000" [] "g1" rfl (by decide) rfl
    rw [h.1]
    decide⟩

/-- C4: `createKeyImage` equals the hex hash of
(hash of message ++ publicKey) ++ privateKey, is a deterministic total
function of its three string inputs, and genuinely depends on the message:
under an injective digest, distinct messages yield distinct key images. -/
theorem keyImage_characterization (p : Primitives) (m1 m2 sk pk : String)
    (hm : m1 ≠ m2) (hinj : Function.Injective p.hashHex) :
    (∀ m sk1 pk1, createKeyImage p m sk1 pk1 =
        p.hashHex (p.hashHex (m ++ pk1) ++ sk1))
  ∧ (∀ m m' sk1 sk1' pk1 pk1', m = m' → sk1 = sk1' → pk1 = pk1' →
        createKeyImage p m sk1 pk1 = createKeyImage p m' sk1' pk1')
  ∧ createKeyImage p m1 sk pk ≠ createKeyImage p m2 sk pk := by
  refine ⟨fun _ _ _ => rfl, ?_, ?_⟩
  · intro m m' sk1 sk1' pk1 pk1' h1 h2 h3
    rw [h1, h2, h3]
  · intro h
    have h1 : p.hashHex (p.hashHex (m1 ++ pk) ++ sk) =
        p.hashHex (p.hashHex (m2 ++ pk) ++ sk) := h
    have h2 := string_append_cancel_right (hinj h1)
    have h3 := string_append_cancel_right (hinj h2)
    exact hm h3

/-- Witness for the key-image characterization at concrete inputs, with the
identity function (injective) standing in for the digest. -/
theorem keyImage_characterization_witness :
    ("a" : String) ≠ "b" ∧ Function.Injective pId.hashHex ∧
    ((∀ m sk1 pk1, createKeyImage pId m sk1 pk1 =
        pId.hashHex (pId.hashHex (m ++ pk1) ++ sk1))
     ∧ (∀ m m' sk1 sk1' pk1 pk1', m = m' → sk1 = sk1' → pk1 = pk1' →
          createKeyImage pId m sk1 pk1 = createKeyImage pId m' sk1' pk1')
     ∧ createKeyImage pId "a" "sk" "pk" ≠ createKeyImage pId "b" "sk" "pk") :=
  ⟨by decide, fun _ _ h => h,
    keyImage_characterization pId "a" "b" "sk" "pk" (by decide)
      (fun _ _ h => h)⟩

/-- C6: the verifier is insensitive to entry content: replacing the ring
entry at any index by a different string, the original and the replacement
both of length at least 10, leaves the verification outcome unchanged. -/
theorem verify_content_insensitive (p : Primitives) (s : LSAGSignature)
    (G : LSAGGroup) (i : Nat) (e e1 : String)
    (he : s.ringSignature[i]? = some e) (h10 : 10 ≤ e.length)
    (h10' : 10 ≤ e1.length) :
    verifyLSAGSignature p
        { s with ringSignature := s.ringSignature.set i e1 } G =
      verifyLSAGSignature p s G := by
  have hil : i < s.ringSignature.length := by
    by_contra hge
    rw [List.getElem?_eq_none (Nat.le_of_not_lt hge)] at he
    exact absurd he (by simp)
  have hall : ∀ j, entryOk (s.ringSignature.set i e1) j =
      entryOk s.ringSignature j := by
    intro j
    by_cases hij : j = i
    · subst hij
      have l1 : entryOk (s.ringSignature.set j e1) j = true :=
        (entryOk_eq_true_iff _ _).mpr
          ⟨e1, List.getElem?_set_self hil, h10'⟩
      have l2 : entryOk s.ringSignature j = true :=
        (entryOk_eq_true_iff _ _).mpr ⟨e, he, h10⟩
      rw [l1, l2]
    · unfold entryOk
      rw [List.getElem?_set_ne (fun hh => hij hh.symm)]
  unfold verifyLSAGSignature
  exact verifyLoop_congr p p (s.ringSignature.set i e1) s.ringSignature
    G.members G.members 0 0 s.challenge s.challenge rfl
    (fun k _ => hall _)

/-- Witness for content insensitivity: replacing sigC's only entry by the
ten-character string "XXXXXXXXXX" leaves verification unchanged. -/
theorem verify_content_insensitive_witness :
    sigC.ringSignature[0]? = some "hellohellor0000000000" ∧
    10 ≤ ("hellohellor0000000000" : String).length ∧
    10 ≤ ("XXXXXXXXXX" : String).length ∧
    verifyLSAGSignature pId
        { sigC with ringSignature := sigC.ringSignature.set 0 "XXXXXXXXXX" }
        GC =
      verifyLSAGSignature pId sigC GC :=
  ⟨by decide, by decide, by decide,
    verify_content_insensitive pId sigC GC 0 "hellohellor0000000000"
      "XXXXXXXXXX" (by decide) (by decide) (by decide)⟩

/-- A group whose id is present but equal to the empty string. -/
def GEmptyId : LSAGGroup := { id := some "", name := "g", members := [] }

/-- A group with no id at all. -/
def GNoId : LSAGGroup := { id := none, name := "g", members := [] }

/-- C7 counterexample: a group whose id is present but the empty string is
still rejected by `generateLSAGSignature` (JavaScript falsiness of
`group.id`), so a present id does not guarantee a returned signature. -/
theorem generate_present_empty_id_errors :
    GEmptyId.id = some "" ∧
    generateLSAGSignature pId "m" "sk" "pk" GEmptyId 0 [] =
      .error "Group must have an ID to generate signature" :=
  ⟨rfl, by decide⟩

/-- C7 amended: `generateLSAGSignature` fails with the missing-id error
exactly when `group.id` is absent or the empty string (both falsy in the
source's check); whenever `group.id` is a present, non-empty string it
returns a record whose groupId equals it. -/
theorem generate_id_behavior (p : Primitives) (m sk pk : String)
    (G : LSAGGroup) (idx : Nat) (rs : List String) :
    ((G.id = none ∨ G.id = some "") →
       generateLSAGSignature p m sk pk G idx rs =
         .error "Group must have an ID to generate signature")
  ∧ (∀ gid, G.id = some gid → gid ≠ "" →
       ∃ sig, generateLSAGSignature p m sk pk G idx rs = .ok sig ∧
         sig.groupId = gid) := by
  constructor
  · rintro (hid | hid) <;> simp [generateLSAGSignature, hid]
  · intro gid hid hgid
    exact ⟨_, (generateLSAGSignature_ok_iff p m sk pk G idx rs _).mpr
      ⟨gid, hid, hgid, rfl⟩, rfl⟩

/-- Witness for the id behavior: the no-id group is rejected and the group
with id "g1" yields a record carrying groupId "g1". -/
theorem generate_id_behavior_witness :
    (GNoId.id = none ∨ GNoId.id = some "") ∧
    generateLSAGSignature pId "m" "sk" "pk" GNoId 0 [] =
      .error "Group must have an ID to generate signature" ∧
    GC.id = some "g1" ∧ ("g1" : String) ≠ "" ∧
    ∃ sig, generateLSAGSignature pId "m" "sk" "pk" GC 0 [] = .ok sig ∧
      sig.groupId = "g1" :=
  ⟨Or.inl rfl,
   (generate_id_behavior pId "m" "sk" "pk" GNoId 0 []).1 (Or.inl rfl),
   rfl, by decide,
   (generate_id_behavior pId "m" "sk" "pk" GC 0 []).2 "g1" rfl (by decide)⟩

/-- C8: noninterference — the verification outcome depends only on the
member count and on the presence and length of each ring entry at indices
below it; the hash primitives, the stored challenge, key image, message and
group id of the signature, and the member public keys (which feed only the
never-compared chain) are all irrelevant. -/
theorem verify_noninterference (p q : Primitives) (s t : LSAGSignature)
    (G H : LSAGGroup)
    (hlen : G.members.length = H.members.length)
    (hent : ∀ i < G.members.length,
      (s.ringSignature[i]?).map String.length =
        (t.ringSignature[i]?).map String.length) :
    verifyLSAGSignature p s G = verifyLSAGSignature q t H := by
  unfold verifyLSAGSignature
  refine verifyLoop_congr p q s.ringSignature t.ringSignature
    G.members H.members 0 0 s.challenge t.challenge hlen ?_
  intro k hk
  have hk2 := hent k hk
  unfold entryOk
  cases hs : s.ringSignature[0 + k]? with
  | none =>
    rw [show (0 : Nat) + k = k from Nat.zero_add k] at hs
    rw [hs] at hk2
    cases ht : t.ringSignature[0 + k]? with
    | none => rfl
    | some f =>
      rw [show (0 : Nat) + k = k from Nat.zero_add k] at ht
      rw [ht] at hk2
      exact absurd hk2 (by simp)
  | some e =>
    rw [show (0 : Nat) + k = k from Nat.zero_add k] at hs
    rw [hs] at hk2
    cases ht : t.ringSignature[0 + k]? with
    | none =>
      rw [show (0 : Nat) + k = k from Nat.zero_add k] at ht
      rw [ht] at hk2
      exact absurd hk2 (by simp)
    | some f =>
      rw [show (0 : Nat) + k = k from Nat.zero_add k] at ht
      rw [ht] at hk2
      simp only [Option.map_some'] at hk2
      injection hk2 with hlen2
      dsimp only
      rw [hlen2]

/-- Witness for noninterference: sigC against GC under pId versus sigD
(same entry count and lengths, all other fields different) against HC (same
member count, different public key, no id) under the different primitives
pX — the outcomes coincide. -/
theorem verify_noninterference_witness :
    GC.members.length = HC.members.length ∧
    (∀ i < GC.members.length,
      (sigC.ringSignature[i]?).map String.length =
        (sigD.ringSignature[i]?).map String.length) ∧
    verifyLSAGSignature pId sigC GC = verifyLSAGSignature pX sigD HC :=
  ⟨by decide, by decide,
    verify_noninterference pId pX sigC sigD GC HC (by decide) (by decide)⟩

/-- C9: behavior at mismatched lengths is total and defined — when the
group has more members than there are ring entries the missing entry fails
the presence check and verification returns false (no exception exists in
the embedding: the function is total); and ring entries beyond the member
count are never inspected, so truncating them changes nothing. -/
theorem verify_length_mismatch (p : Primitives) (s : LSAGSignature)
    (G : LSAGGroup) :
    (s.ringSignature.length < G.members.length →
       verifyLSAGSignature p s G = false)
  ∧ verifyLSAGSignature p
      { s with ringSignature := s.ringSignature.take G.members.length } G =
      verifyLSAGSignature p s G := by
  constructor
  · intro hlt
    apply bool_eq_false_of_ne_true
    rw [verifyLSAGSignature_eq_true_iff]
    intro hall
    have h1 := hall s.ringSignature.length hlt
    rw [entryOk_eq_true_iff] at h1
    obtain ⟨e, he, _⟩ := h1
    rw [List.getElem?_eq_none (Nat.le_refl _)] at he
    exact absurd he (by simp)
  · have hall : ∀ j < G.members.length,
        entryOk (s.ringSignature.take G.members.length) j =
          entryOk s.ringSignature j := by
      intro j hj
      unfold entryOk
      rw [List.getElem?_take_of_lt hj]
    unfold verifyLSAGSignature
    refine verifyLoop_congr p p _ s.ringSignature G.members G.members 0 0
      _ s.challenge rfl ?_
    intro k hk
    rw [Nat.zero_add]
    exact hall k hk

/-- Witness for the length-mismatch behavior: the empty-entry record sigE
against the one-member group GC returns false, and truncating the entries
of sigC to GC's member count (a no-op at equal lengths) leaves the outcome
unchanged. -/
theorem verify_length_mismatch_witness :
    sigE.ringSignature.length < GC.members.length ∧
    verifyLSAGSignature pId sigE GC = false ∧
    verifyLSAGSignature pId
        { sigE with
          ringSignature := sigE.ringSignature.take GC.members.length } GC =
      verifyLSAGSignature pId sigE GC :=
  ⟨by decide, (verify_length_mismatch pId sigE GC).1 (by decide),
    (verify_length_mismatch pId sigE GC).2⟩
